import Mathlib

/-!
# go-url-shortener: a shallow embedding of `main.go`

The program keeps one global map from short tokens to long URLs and serves two
handlers: the root handler ("/"), which redirects `/<token>` to the stored URL,
and the shorten handler ("/shorten"), which normalises a submitted URL, draws a
token from 4 random bytes and records the pair.

Modelling decisions.
* A Go `string` is a sequence of bytes; it is a `List Char` here, one `Char` per
  byte.  Only equality, concatenation, slicing and prefix tests are used.
* The 4 bytes that `rand.Read` puts in the buffer are an input of the model.
* Requests are handled one at a time; the mutex calls have no sequential effect
  and are left out.
* Calls into `net/http` that write the response are recorded as the call made
  (`http.Error`, `http.Redirect`, `http.NotFound`, `http.ServeFile`,
  `tmpl.Execute`) with its arguments.  The `Location` header of a redirect is
  the value `http.Redirect` sets for it, `hexEscapeNonASCII(url)`; the fragment
  of a 200 answer is given by the data handed to the template.
* `Result.generated` records the values returned by `generateShortURL` during a
  call, so that statements can speak of the tokens generated so far.
-/

namespace UrlShortener

/-! ## Strings -/

/-- Go `string`: a sequence of bytes, one `Char` per byte. -/
abbrev GoString := List Char

/-- One byte. -/
abbrev Byte := Fin 256

/-- Slice expression `s[:n]`; a run-time panic (`none`) unless `n ≤ len(s)`. -/
def sliceTo (s : GoString) (n : Nat) : Option GoString :=
  if n ≤ s.length then some (s.take n) else none

/-- Slice expression `s[n:]`; a run-time panic (`none`) unless `n ≤ len(s)`. -/
def sliceFrom (s : GoString) (n : Nat) : Option GoString :=
  if n ≤ s.length then some (s.drop n) else none

/-- Go `strings.HasPrefix`: `len(s) >= len(prefix) && s[:len(prefix)] == prefix`. -/
def HasPrefix (s pre : GoString) : Bool :=
  decide (pre.length ≤ s.length) && (s.take pre.length == pre)

/-! ## `encoding/base64`, `URLEncoding` -/

/-- The URL-safe alphabet of `base64.URLEncoding`. -/
def encodeURL : GoString :=
  "ABCDEFGHIJKLMNOPQRSTUVWXYZabcdefghijklmnopqrstuvwxyz0123456789-_".toList

/-- The padding character `base64.StdPadding`. -/
def padChar : Char := '='

/-- Table lookup `enc.encode[i]`; every index used is masked with `0x3F`. -/
def encode (i : Nat) : Char := encodeURL.getD i padChar

/-- Go `(*Encoding).EncodeToString` for `URLEncoding`: each full group of three
bytes gives four characters; a remainder of one or two bytes gives two or three
characters followed by padding. -/
def EncodeToString : List Byte → GoString
  | b0 :: b1 :: b2 :: rest =>
    let val := (b0.val <<< 16) ||| (b1.val <<< 8) ||| b2.val
    encode ((val >>> 18) &&& 0x3F) :: encode ((val >>> 12) &&& 0x3F) ::
      encode ((val >>> 6) &&& 0x3F) :: encode (val &&& 0x3F) :: EncodeToString rest
  | [b0, b1] =>
    let val := (b0.val <<< 16) ||| (b1.val <<< 8)
    [encode ((val >>> 18) &&& 0x3F), encode ((val >>> 12) &&& 0x3F),
      encode ((val >>> 6) &&& 0x3F), padChar]
  | [b0] =>
    let val := b0.val <<< 16
    [encode ((val >>> 18) &&& 0x3F), encode ((val >>> 12) &&& 0x3F), padChar, padChar]
  | [] => []

/-! ## Token generator -/

/-- The buffer `b := make([]byte, 4)` after `rand.Read(b)`. -/
structure RandBuf where
  b0 : Byte
  b1 : Byte
  b2 : Byte
  b3 : Byte
  deriving DecidableEq

/-- The buffer as a byte slice. -/
def RandBuf.toList (b : RandBuf) : List Byte := [b.b0, b.b1, b.b2, b.b3]

/-- Go `generateShortURL`: `base64.URLEncoding.EncodeToString(b)[:6]`. -/
def generateShortURL (b : RandBuf) : Option GoString :=
  sliceTo (EncodeToString b.toList) 6

/-! ## Store -/

/-- Go `map[string]string`: a finite map with one value per key. -/
abbrev GoMap := AList (fun _ : GoString => GoString)

/-- Go `URLStore`; the mutex is not modelled. -/
structure URLStore where
  urls : GoMap

/-- The initial value of the global `store`: `make(map[string]string)`. -/
def URLStore.empty : URLStore := ⟨∅⟩

/-- Map read `m[k]` in the comma-ok form. -/
def URLStore.get (s : URLStore) (k : GoString) : Option GoString := s.urls.lookup k

/-- Map assignment `store.urls[k] = v`: insert or overwrite. -/
def URLStore.put (s : URLStore) (k v : GoString) : URLStore := ⟨s.urls.insert k v⟩

/-- Go `len(store.urls)`. -/
def URLStore.len (s : URLStore) : Nat := s.urls.keys.length

/-! ## Requests and responses -/

/-- The parts of `*http.Request` that the handlers read. -/
structure Request where
  /-- Field `r.Method`. -/
  Method : GoString
  /-- Field `r.URL.Path`. -/
  Path : GoString
  /-- Field `r.Host`. -/
  Host : GoString
  /-- Value of `r.FormValue("url")`. -/
  FormValueUrl : GoString
  deriving DecidableEq

/-- The anonymous struct passed to the template. -/
structure ResultData where
  ShortURL : GoString
  ID : GoString
  deriving DecidableEq

def MethodPost : GoString := "POST".toList
def StatusOK : Nat := 200
def StatusFound : Nat := 302
def StatusBadRequest : Nat := 400
def StatusNotFound : Nat := 404
def StatusMethodNotAllowed : Nat := 405

/-- What a handler does with the `http.ResponseWriter`. -/
inductive Response where
  /-- Call `http.Error(w, msg, code)`. -/
  | Error (msg : String) (code : Nat)
  /-- Call `http.Redirect(w, r, url, code)`. -/
  | Redirect (url : GoString) (code : Nat)
  /-- Call `http.NotFound(w, r)`. -/
  | NotFound
  /-- Call `http.ServeFile(w, r, name)`. -/
  | ServeFile (name : String)
  /-- Call `tmpl.Execute(w, data)` as the first write: status 200, body the rendered fragment. -/
  | Execute (data : ResultData)
  /-- A run-time panic unwinds the handler before anything is written. -/
  | Panicked
  deriving DecidableEq

/-- Status code of the response, when the handler fixes it. -/
def Response.status : Response → Option Nat
  | .Error _ code => some code
  | .Redirect _ code => some code
  | .NotFound => some StatusNotFound
  | .ServeFile _ => none
  | .Execute _ => some StatusOK
  | .Panicked => none

/-- Go `utf8.RuneSelf`: bytes below it are ASCII. -/
def RuneSelf : Nat := 0x80

/-- Go `hexEscapeNonASCII` of `net/http`: every byte `>= utf8.RuneSelf` is
replaced by `%` and `strconv.AppendInt(_, int64(byte), 16)`, its lower-case
hexadecimal digits; the other bytes are copied. -/
def hexEscapeNonASCII : GoString → GoString
  | [] => []
  | c :: s =>
    if c.toNat ≥ RuneSelf then '%' :: (Nat.toDigits 16 c.toNat ++ hexEscapeNonASCII s)
    else c :: hexEscapeNonASCII s

/-- The value `http.Redirect(w, r, url, code)` sets for the `Location` header,
`h.Set("Location", hexEscapeNonASCII(url))`.  `http.Redirect` first rewrites
`url` when `url.Parse` succeeds with an empty scheme and host (a relative
target).  For a `url` starting with `http://` or `https://` the parse either
fails or finds that scheme, so `url` is escaped as it is.  The rewrite of other
targets is not modelled: `none`. -/
def redirectLocation (url : GoString) : Option GoString :=
  if HasPrefix url "http://".toList || HasPrefix url "https://".toList then
    some (hexEscapeNonASCII url)
  else none

/-- The `Location` header of the response, where the model determines it: the
value set by `http.Redirect`; `none` when the response is not a redirect. -/
def Response.location : Response → Option GoString
  | .Redirect url _ => redirectLocation url
  | _ => none

/-- Token shown in the rendered fragment (the element identifier). -/
def Response.token : Response → Option GoString
  | .Execute data => some data.ID
  | _ => none

/-- Outcome of one handler call. -/
structure Result where
  /-- The global store after the call. -/
  store : URLStore
  /-- The response. -/
  resp : Response
  /-- The values returned by the calls of `generateShortURL` made during the call. -/
  generated : List GoString

/-! ## Handlers -/

/-- The handler registered for "/". -/
def rootHandler (store : URLStore) (r : Request) : Result :=
  if r.Path ≠ "/".toList then
    match sliceFrom r.Path 1 with
    | none => ⟨store, .Panicked, []⟩
    | some key =>
      match store.get key with
      | some longURL => ⟨store, .Redirect longURL StatusFound, []⟩
      | none => ⟨store, .NotFound, []⟩
  else
    ⟨store, .ServeFile "index.html", []⟩

/-- The handler registered for "/shorten". -/
def shortenHandler (store : URLStore) (r : Request) (rnd : RandBuf) : Result :=
  if r.Method ≠ MethodPost then
    ⟨store, .Error "Method not allowed" StatusMethodNotAllowed, []⟩
  else
    let longURL := r.FormValueUrl
    if longURL = [] then
      ⟨store, .Error "URL is required" StatusBadRequest, []⟩
    else
      let longURL :=
        if !HasPrefix longURL "http://".toList && !HasPrefix longURL "https://".toList then
          "http://".toList ++ longURL
        else longURL
      match generateShortURL rnd with
      | none => ⟨store, .Panicked, []⟩
      | some shortURL =>
        let store := store.put shortURL longURL
        let data : ResultData :=
          { ShortURL := "http://".toList ++ r.Host ++ "/".toList ++ shortURL, ID := shortURL }
        ⟨store, .Execute data, [shortURL]⟩

/-! ## Sequences of requests -/

/-- One request reaching a handler, with the random bytes a shorten call would read. -/
inductive Call where
  | root (r : Request)
  | shorten (r : Request) (rnd : RandBuf)
  deriving DecidableEq

/-- Serve one request. -/
def serve (store : URLStore) : Call → Result
  | .root r => rootHandler store r
  | .shorten r rnd => shortenHandler store r rnd

/-- Serve a sequence of requests in order; the result is the final store and
the tokens generated on the way. -/
def run (store : URLStore) : List Call → URLStore × List GoString
  | [] => (store, [])
  | c :: cs =>
    let res := serve store c
    let rest := run res.store cs
    (rest.1, res.generated ++ rest.2)

/-! ## Vocabulary of the specification -/

/-- The URL-safe alphabet: `A-Z`, `a-z`, `0-9`, `-` and `_`. -/
def isURLSafe (c : Char) : Bool :=
  ('A' ≤ c && c ≤ 'Z') || ('a' ≤ c && c ≤ 'z') || ('0' ≤ c && c ≤ '9') || c == '-' || c == '_'

/-- The normalized long URL in the words of the specification: the value itself
when it starts with `http://` or `https://`, otherwise `http://` followed by the value. -/
def normalized (u : GoString) : GoString :=
  if "http://".toList <+: u ∨ "https://".toList <+: u then u else "http://".toList ++ u

/-- Closed form of the token: the six sextets of the four bytes, each through the
alphabet (`generateShortURL_eq` proves it equal to what `generateShortURL` returns). -/
def tokenChars (b : RandBuf) : GoString :=
  [encode (b.b0.val / 4), encode (b.b0.val % 4 * 16 + b.b1.val / 16),
    encode (b.b1.val % 16 * 4 + b.b2.val / 64), encode (b.b2.val % 64),
    encode (b.b3.val / 4), encode (b.b3.val % 4 * 16)]

/-- Position of a character in the alphabet (64 when absent). -/
def decodeIndex (c : Char) : Nat := encodeURL.indexOf c

/-- A 4-byte buffer is four bytes. -/
def RandBuf.equiv : RandBuf ≃ Byte × Byte × Byte × Byte where
  toFun b := (b.b0, b.b1, b.b2, b.b3)
  invFun p := ⟨p.1, p.2.1, p.2.2.1, p.2.2.2⟩
  left_inv := fun ⟨_, _, _, _⟩ => rfl
  right_inv := fun ⟨_, _, _, _⟩ => rfl

/-- Every stored value starts with a scheme. -/
def SchemeInv (store : URLStore) : Prop :=
  ∀ k v, store.get k = some v → "http://".toList <+: v ∨ "https://".toList <+: v

/-! ## Sample requests -/

/-- A form submission `POST /shorten` with `url=u` to host `localhost:8000`. -/
def postShorten (u : String) : Request :=
  ⟨MethodPost, "/shorten".toList, "localhost:8000".toList, u.toList⟩

/-- A request `GET path` to host `localhost:8000`, without form values. -/
def getPath (path : String) : Request :=
  ⟨"GET".toList, path.toList, "localhost:8000".toList, []⟩

/-- A store holding the single entry `AAAAAA ↦ http://a.example`, as left by one
submission of `a.example` whose random bytes were all zero. -/
def oneEntryStore : URLStore :=
  (shortenHandler URLStore.empty (postShorten "a.example") ⟨0, 0, 0, 0⟩).store

/-! ## Base64 arithmetic -/

theorem or_bytes (a b c : Nat) (hb : b < 256) (hc : c < 256) :
    (a <<< 16) ||| (b <<< 8) ||| c = a * 65536 + b * 256 + c := by
  have h1 : (a <<< 16) ||| (b <<< 8) = 2 ^ 8 * (a * 256 + b) := by
    rw [Nat.shiftLeft_eq, Nat.shiftLeft_eq]
    have h := Nat.mul_add_lt_is_or (i := 16) (b := b * 2 ^ 8) (by omega) a
    rw [show a * 2 ^ 16 = 2 ^ 16 * a by ring, ← h]
    ring
  rw [h1, ← Nat.mul_add_lt_is_or (by omega)]
  ring

theorem mask6 (x : Nat) : x &&& 0x3F = x % 64 :=
  Nat.and_pow_two_sub_one_eq_mod x 6

theorem sextet0 (a b c : Nat) (ha : a < 256) (hb : b < 256) (hc : c < 256) :
    (((a <<< 16) ||| (b <<< 8) ||| c) >>> 18) &&& 0x3F = a / 4 := by
  rw [or_bytes a b c hb hc, mask6, Nat.shiftRight_eq_div_pow]
  omega

theorem sextet1 (a b c : Nat) (hb : b < 256) (hc : c < 256) :
    (((a <<< 16) ||| (b <<< 8) ||| c) >>> 12) &&& 0x3F = a % 4 * 16 + b / 16 := by
  rw [or_bytes a b c hb hc, mask6, Nat.shiftRight_eq_div_pow]
  omega

theorem sextet2 (a b c : Nat) (hb : b < 256) (hc : c < 256) :
    (((a <<< 16) ||| (b <<< 8) ||| c) >>> 6) &&& 0x3F = b % 16 * 4 + c / 64 := by
  rw [or_bytes a b c hb hc, mask6, Nat.shiftRight_eq_div_pow]
  omega

theorem sextet3 (a b c : Nat) (hb : b < 256) (hc : c < 256) :
    ((a <<< 16) ||| (b <<< 8) ||| c) &&& 0x3F = c % 64 := by
  rw [or_bytes a b c hb hc, mask6]
  omega

theorem tail0 (a : Nat) (ha : a < 256) : ((a <<< 16) >>> 18) &&& 0x3F = a / 4 := by
  rw [mask6, Nat.shiftLeft_eq, Nat.shiftRight_eq_div_pow]
  omega

theorem tail1 (a : Nat) : ((a <<< 16) >>> 12) &&& 0x3F = a % 4 * 16 := by
  rw [mask6, Nat.shiftLeft_eq, Nat.shiftRight_eq_div_pow]
  omega

theorem encodeToString_randBuf (b : RandBuf) :
    EncodeToString b.toList = tokenChars b ++ [padChar, padChar] := by
  obtain ⟨b0, b1, b2, b3⟩ := b
  simp only [RandBuf.toList, EncodeToString, tokenChars, List.cons_append, List.nil_append]
  rw [sextet0 _ _ _ b0.isLt b1.isLt b2.isLt, sextet1 _ _ _ b1.isLt b2.isLt,
    sextet2 _ _ _ b1.isLt b2.isLt, sextet3 _ _ _ b1.isLt b2.isLt, tail0 _ b3.isLt, tail1]

theorem generateShortURL_eq (b : RandBuf) : generateShortURL b = some (tokenChars b) := by
  simp [generateShortURL, sliceTo, encodeToString_randBuf, tokenChars]

set_option maxRecDepth 100000 in
theorem decodeIndex_encode : ∀ i, i < 64 → decodeIndex (encode i) = i := by
  decide

set_option maxRecDepth 100000 in
theorem encode_urlSafe : ∀ i, i < 64 → isURLSafe (encode i) = true ∧ encode i ≠ padChar := by
  decide

theorem encode_inj {i j : Nat} (hi : i < 64) (hj : j < 64) (h : encode i = encode j) : i = j := by
  have := congrArg decodeIndex h
  rwa [decodeIndex_encode i hi, decodeIndex_encode j hj] at this

theorem tokenChars_inj {a b : RandBuf} (h : tokenChars a = tokenChars b) : a = b := by
  obtain ⟨a0, a1, a2, a3⟩ := a
  obtain ⟨b0, b1, b2, b3⟩ := b
  simp only [tokenChars, List.cons.injEq, and_true] at h
  obtain ⟨h0, h1, h2, h3, h4, h5⟩ := h
  have e0 := encode_inj (by omega) (by omega) h0
  have e1 := encode_inj (by omega) (by omega) h1
  have e2 := encode_inj (by omega) (by omega) h2
  have e3 := encode_inj (by omega) (by omega) h3
  have e4 := encode_inj (by omega) (by omega) h4
  have e5 := encode_inj (by omega) (by omega) h5
  have r0 : a0 = b0 := Fin.ext (by omega)
  have r1 : a1 = b1 := Fin.ext (by omega)
  have r2 : a2 = b2 := Fin.ext (by omega)
  have r3 : a3 = b3 := Fin.ext (by omega)
  subst r0 r1 r2 r3
  rfl

theorem card_randBuf : Nat.card RandBuf = 2 ^ 32 := by
  rw [Nat.card_congr RandBuf.equiv, Nat.card_prod, Nat.card_prod, Nat.card_prod,
    Nat.card_eq_fintype_card, Fintype.card_fin]
  norm_num

theorem tokenChars_last (b : RandBuf) :
    (tokenChars b)[5]? = some 'A' ∨ (tokenChars b)[5]? = some 'Q' ∨
      (tokenChars b)[5]? = some 'g' ∨ (tokenChars b)[5]? = some 'w' := by
  have h : b.b3.val % 4 = 0 ∨ b.b3.val % 4 = 1 ∨ b.b3.val % 4 = 2 ∨ b.b3.val % 4 = 3 := by omega
  simp only [tokenChars, List.getElem?_cons_succ, List.getElem?_cons_zero]
  rcases h with h | h | h | h <;> rw [h]
  · left; decide
  · right; left; decide
  · right; right; left; decide
  · right; right; right; decide

theorem tokenChars_urlSafe (b : RandBuf) :
    ∀ c ∈ tokenChars b, isURLSafe c = true ∧ c ≠ '=' := by
  intro c hc
  simp only [tokenChars, List.mem_cons, List.mem_singleton, List.not_mem_nil, or_false] at hc
  rcases hc with h | h | h | h | h | h <;> subst h <;> exact encode_urlSafe _ (by omega)

/-- C5: for every 4 random bytes, `generateShortURL` returns the first 6
characters of their base64-URL encoding; the encoding has 8 characters, so the
slice `[:6]` is in bounds (the call returns, it does not panic); the token has
exactly 6 characters, each from the URL-safe alphabet and none the padding `=`. -/
theorem C5_token_shape (b : RandBuf) :
    (EncodeToString b.toList).length = 8 ∧
    generateShortURL b = some ((EncodeToString b.toList).take 6) ∧
    ∃ t, generateShortURL b = some t ∧ t.length = 6 ∧
      ∀ c ∈ t, isURLSafe c = true ∧ c ≠ '=' := by
  refine ⟨?_, ?_, tokenChars b, generateShortURL_eq b, rfl, tokenChars_urlSafe b⟩
  · simp [encodeToString_randBuf, tokenChars]
  · simp [generateShortURL_eq, encodeToString_randBuf, tokenChars]

/-- C10: token derivation is injective in the 4 bytes; the 8-character encoding
is the token followed by the two padding characters `==`, so truncation loses
none of the 32 bits; the set of possible tokens has exactly 2^32 elements; the
6th character is one of `A`, `Q`, `g`, `w`. -/
theorem C10_token_injective :
    (∀ b1 b2 : RandBuf, generateShortURL b1 = generateShortURL b2 → b1 = b2) ∧
    (∀ b : RandBuf, ∃ t, generateShortURL b = some t ∧
      EncodeToString b.toList = t ++ ['=', '='] ∧
      (t[5]? = some 'A' ∨ t[5]? = some 'Q' ∨ t[5]? = some 'g' ∨ t[5]? = some 'w')) ∧
    Set.ncard {t | ∃ b : RandBuf, generateShortURL b = some t} = 2 ^ 32 := by
  refine ⟨?_, ?_, ?_⟩
  · intro b1 b2 h
    rw [generateShortURL_eq, generateShortURL_eq] at h
    exact tokenChars_inj (Option.some.inj h)
  · intro b
    exact ⟨tokenChars b, generateShortURL_eq b, encodeToString_randBuf b, tokenChars_last b⟩
  · have hset : {t | ∃ b : RandBuf, generateShortURL b = some t} = tokenChars '' Set.univ := by
      ext t
      simp [generateShortURL_eq, eq_comm]
    rw [hset, Set.ncard_image_of_injective _ (fun a b h => tokenChars_inj h), Set.ncard_univ,
      card_randBuf]

/-! ## Strings and the store -/

theorem hasPrefix_iff (s pre : GoString) : HasPrefix s pre = true ↔ pre <+: s := by
  rw [List.prefix_iff_eq_take]
  simp only [HasPrefix, Bool.and_eq_true, decide_eq_true_eq, beq_iff_eq]
  constructor
  · rintro ⟨_, h⟩
    exact h.symm
  · intro h
    refine ⟨?_, h.symm⟩
    have := congrArg List.length h
    simp only [List.length_take] at this
    omega

theorem normalize_eq (u : GoString) :
    (if !HasPrefix u "http://".toList && !HasPrefix u "https://".toList then
      "http://".toList ++ u else u) = normalized u := by
  unfold normalized
  have e1 := hasPrefix_iff u "http://".toList
  have e2 := hasPrefix_iff u "https://".toList
  by_cases h1 : "http://".toList <+: u
  · rw [if_pos (Or.inl h1), e1.2 h1]
    rfl
  · have f1 : HasPrefix u "http://".toList = false := by
      cases h : HasPrefix u "http://".toList
      · rfl
      · exact absurd (e1.1 h) h1
    by_cases h2 : "https://".toList <+: u
    · rw [if_pos (Or.inr h2), e2.2 h2, f1]
      rfl
    · have f2 : HasPrefix u "https://".toList = false := by
        cases h : HasPrefix u "https://".toList
        · rfl
        · exact absurd (e2.1 h) h2
      rw [if_neg (not_or.2 ⟨h1, h2⟩), f1, f2]
      rfl

theorem normalized_scheme (u : GoString) :
    "http://".toList <+: normalized u ∨ "https://".toList <+: normalized u := by
  unfold normalized
  split
  · assumption
  · exact Or.inl (List.prefix_append _ _)

/-! ## The `Location` header -/

theorem hexEscape_append (a b : GoString) :
    hexEscapeNonASCII (a ++ b) = hexEscapeNonASCII a ++ hexEscapeNonASCII b := by
  induction a with
  | nil => rfl
  | cons c a ih =>
    simp only [List.cons_append, hexEscapeNonASCII]
    split <;> simp [ih]

theorem hexEscape_ascii (s : GoString) (h : ∀ c ∈ s, c.toNat < 0x80) :
    hexEscapeNonASCII s = s := by
  induction s with
  | nil => rfl
  | cons c s ih =>
    have hc : ¬c.toNat ≥ RuneSelf := by
      have := h c (List.mem_cons_self c s)
      simp only [RuneSelf]
      omega
    simp only [hexEscapeNonASCII, hc, if_false]
    rw [ih (fun x hx => h x (List.mem_cons_of_mem c hx))]

theorem prefix_hexEscape {pre s : GoString} (hp : ∀ c ∈ pre, c.toNat < 0x80)
    (h : pre <+: s) : pre <+: hexEscapeNonASCII s := by
  obtain ⟨t, rfl⟩ := h
  rw [hexEscape_append, hexEscape_ascii pre hp]
  exact List.prefix_append _ _

theorem ascii_http : ∀ c ∈ "http://".toList, c.toNat < 0x80 := by
  decide

theorem ascii_https : ∀ c ∈ "https://".toList, c.toNat < 0x80 := by
  decide

theorem redirectLocation_of_scheme (url : GoString)
    (h : "http://".toList <+: url ∨ "https://".toList <+: url) :
    redirectLocation url = some (hexEscapeNonASCII url) := by
  have hb : (HasPrefix url "http://".toList || HasPrefix url "https://".toList) = true := by
    rw [Bool.or_eq_true]
    rcases h with h | h
    · exact Or.inl ((hasPrefix_iff _ _).2 h)
    · exact Or.inr ((hasPrefix_iff _ _).2 h)
  rw [redirectLocation, if_pos hb]

theorem hexEscape_scheme {url : GoString}
    (h : "http://".toList <+: url ∨ "https://".toList <+: url) :
    "http://".toList <+: hexEscapeNonASCII url ∨
      "https://".toList <+: hexEscapeNonASCII url := by
  rcases h with h | h
  · exact Or.inl (prefix_hexEscape ascii_http h)
  · exact Or.inr (prefix_hexEscape ascii_https h)

theorem get_put_same (s : URLStore) (k v : GoString) : (s.put k v).get k = some v := by
  simp [URLStore.get, URLStore.put]

theorem get_put_ne (s : URLStore) {k k' : GoString} (v : GoString) (h : k' ≠ k) :
    (s.put k v).get k' = s.get k' := by
  simp [URLStore.get, URLStore.put, AList.lookup_insert_ne h]

theorem len_put_of_mem (s : URLStore) {k : GoString} (v : GoString) (h : k ∈ s.urls) :
    (s.put k v).len = s.len := by
  have hk : k ∈ s.urls.keys := AList.mem_keys.1 h
  have hpos : 0 < s.urls.keys.length := List.length_pos_of_mem hk
  simp only [URLStore.len, URLStore.put, AList.keys_insert, List.length_cons]
  rw [@List.length_erase_of_mem _ instBEqOfDecidableEq _ _ _ hk]
  omega

theorem len_put_of_not_mem (s : URLStore) {k : GoString} (v : GoString) (h : k ∉ s.urls) :
    (s.put k v).len = s.len + 1 := by
  have hk : k ∉ s.urls.keys := fun h' => h (AList.mem_keys.2 h')
  simp only [URLStore.len, URLStore.put, AList.keys_insert, List.length_cons]
  rw [@List.erase_of_not_mem _ instBEqOfDecidableEq _ _ _ hk]

theorem get_isSome_iff (s : URLStore) (k : GoString) : (s.get k).isSome ↔ k ∈ s.urls :=
  AList.lookup_isSome

theorem two_le_len (s : URLStore) {k1 k2 v1 v2 : GoString} (hne : k1 ≠ k2)
    (h1 : s.get k1 = some v1) (h2 : s.get k2 = some v2) : 2 ≤ s.len := by
  have m1 : k1 ∈ s.urls.keys := AList.mem_keys.1 ((get_isSome_iff s k1).1 (by rw [h1]; rfl))
  have m2 : k2 ∈ s.urls.keys := AList.mem_keys.1 ((get_isSome_iff s k2).1 (by rw [h2]; rfl))
  have hnd : [k1, k2].Nodup := by simp [hne]
  have hsub : [k1, k2] ⊆ s.urls.keys := by
    intro x hx
    simp only [List.mem_cons, List.mem_singleton, List.not_mem_nil, or_false] at hx
    rcases hx with rfl | rfl
    · exact m1
    · exact m2
  exact (List.subperm_of_subset hnd hsub).length_le

/-! ## The handlers, case by case -/

theorem shortenHandler_not_post (store : URLStore) (r : Request) (rnd : RandBuf)
    (h : r.Method ≠ MethodPost) :
    shortenHandler store r rnd =
      ⟨store, .Error "Method not allowed" StatusMethodNotAllowed, []⟩ := by
  simp [shortenHandler, h]

theorem shortenHandler_empty (store : URLStore) (r : Request) (rnd : RandBuf)
    (h : r.Method = MethodPost) (hu : r.FormValueUrl = []) :
    shortenHandler store r rnd = ⟨store, .Error "URL is required" StatusBadRequest, []⟩ := by
  simp [shortenHandler, h, hu]

theorem shortenHandler_ok (store : URLStore) (r : Request) (rnd : RandBuf)
    (h : r.Method = MethodPost) (hu : r.FormValueUrl ≠ []) :
    shortenHandler store r rnd =
      ⟨store.put (tokenChars rnd) (normalized r.FormValueUrl),
        .Execute ⟨"http://".toList ++ r.Host ++ "/".toList ++ tokenChars rnd, tokenChars rnd⟩,
        [tokenChars rnd]⟩ := by
  simp only [shortenHandler, h, hu, ne_eq, not_true_eq_false, if_false, normalize_eq,
    generateShortURL_eq]

theorem rootHandler_token (store : URLStore) (r : Request) (t : GoString)
    (ht : t ≠ []) (hp : r.Path = '/' :: t) :
    rootHandler store r =
      match store.get t with
      | some longURL => ⟨store, .Redirect longURL StatusFound, []⟩
      | none => ⟨store, .NotFound, []⟩ := by
  simp [rootHandler, hp, sliceFrom, ht]

theorem rootHandler_store (store : URLStore) (r : Request) :
    (rootHandler store r).store = store := by
  unfold rootHandler
  split
  · split
    · rfl
    · split <;> rfl
  · rfl

theorem serve_keys (store : URLStore) (c : Call) (k : GoString)
    (h : k ∈ (serve store c).store.urls) : k ∈ store.urls ∨ k ∈ (serve store c).generated := by
  cases c with
  | root r =>
    left
    simpa [serve, rootHandler_store] using h
  | shorten r rnd =>
    simp only [serve] at h ⊢
    by_cases hm : r.Method = MethodPost
    · by_cases hu : r.FormValueUrl = []
      · rw [shortenHandler_empty store r rnd hm hu] at h ⊢
        exact Or.inl h
      · rw [shortenHandler_ok store r rnd hm hu] at h ⊢
        simp only [URLStore.put, AList.mem_insert] at h
        rcases h with h | h
        · right
          simp [h]
        · exact Or.inl h
    · rw [shortenHandler_not_post store r rnd hm] at h ⊢
      exact Or.inl h

theorem run_keys (cs : List Call) : ∀ (store : URLStore) (k : GoString),
    k ∈ (run store cs).1.urls → k ∈ store.urls ∨ k ∈ (run store cs).2 := by
  induction cs with
  | nil =>
    intro store k h
    exact Or.inl h
  | cons c cs ih =>
    intro store k h
    simp only [run] at h ⊢
    rcases ih _ k h with h1 | h1
    · rcases serve_keys store c k h1 with h2 | h2
      · exact Or.inl h2
      · exact Or.inr (List.mem_append_left _ h2)
    · exact Or.inr (List.mem_append_right _ h1)

theorem schemeInv_empty : SchemeInv URLStore.empty := by
  intro k v h
  simp [URLStore.get, URLStore.empty] at h

theorem schemeInv_put {store : URLStore} (h : SchemeInv store) (t u : GoString) :
    SchemeInv (store.put t (normalized u)) := by
  intro k v hk
  by_cases hkt : k = t
  · subst hkt
    rw [get_put_same] at hk
    cases hk
    exact normalized_scheme u
  · rw [get_put_ne _ _ hkt] at hk
    exact h k v hk

theorem schemeInv_serve {store : URLStore} (h : SchemeInv store) (c : Call) :
    SchemeInv (serve store c).store := by
  cases c with
  | root r =>
    simpa [serve, rootHandler_store] using h
  | shorten r rnd =>
    simp only [serve]
    by_cases hm : r.Method = MethodPost
    · by_cases hu : r.FormValueUrl = []
      · rw [shortenHandler_empty store r rnd hm hu]
        exact h
      · rw [shortenHandler_ok store r rnd hm hu]
        exact schemeInv_put h _ _
    · rw [shortenHandler_not_post store r rnd hm]
      exact h

theorem schemeInv_run (cs : List Call) : ∀ store : URLStore, SchemeInv store →
    SchemeInv (run store cs).1 := by
  induction cs with
  | nil =>
    intro store h
    exact h
  | cons c cs ih =>
    intro store h
    simp only [run]
    exact ih _ (schemeInv_serve h c)

theorem rootHandler_redirect (store : URLStore) (r : Request) (url : GoString) (code : Nat)
    (h : (rootHandler store r).resp = .Redirect url code) :
    code = StatusFound ∧ ∃ k, store.get k = some url := by
  unfold rootHandler at h
  split at h
  · split at h
    · cases h
    · rename_i key _
      split at h
      · rename_i longURL hget
        simp only [Response.Redirect.injEq] at h
        exact ⟨h.2.symm, key, by rw [hget, h.1]⟩
      · cases h
  · cases h

/-! ## The claims -/

/-- C2: normalization in the shorten handler. For every non-empty submitted
value `u` (method POST), the URL written to the store under the generated token
is `u` itself when `u` starts with `http://` or with `https://`, and
`http://` followed by `u` otherwise. -/
theorem C2_normalization (store : URLStore) (r : Request) (rnd : RandBuf)
    (hm : r.Method = MethodPost) (hu : r.FormValueUrl ≠ []) :
    ∃ t, (shortenHandler store r rnd).generated = [t] ∧
      (("http://".toList <+: r.FormValueUrl ∨ "https://".toList <+: r.FormValueUrl) →
        (shortenHandler store r rnd).store.get t = some r.FormValueUrl) ∧
      (¬("http://".toList <+: r.FormValueUrl ∨ "https://".toList <+: r.FormValueUrl) →
        (shortenHandler store r rnd).store.get t = some ("http://".toList ++ r.FormValueUrl)) := by
  refine ⟨tokenChars rnd, ?_, ?_, ?_⟩
  · rw [shortenHandler_ok store r rnd hm hu]
  · intro h
    rw [shortenHandler_ok store r rnd hm hu, get_put_same, normalized, if_pos h]
  · intro h
    rw [shortenHandler_ok store r rnd hm hu, get_put_same, normalized, if_neg h]

/-- Witness of C2: `example.com` is stored as `http://example.com`, and
`https://example.com` is stored unchanged. -/
theorem C2_normalization_witness :
    (postShorten "example.com").Method = MethodPost ∧
    (postShorten "example.com").FormValueUrl ≠ [] ∧
    (shortenHandler URLStore.empty (postShorten "example.com") ⟨0, 0, 0, 0⟩).store.get
      "AAAAAA".toList = some "http://example.com".toList ∧
    (shortenHandler URLStore.empty (postShorten "https://example.com") ⟨0, 0, 0, 0⟩).store.get
      "AAAAAA".toList = some "https://example.com".toList ∧
    ∃ t, (shortenHandler URLStore.empty (postShorten "example.com") ⟨0, 0, 0, 0⟩).generated =
        [t] ∧
      (("http://".toList <+: (postShorten "example.com").FormValueUrl ∨
          "https://".toList <+: (postShorten "example.com").FormValueUrl) →
        (shortenHandler URLStore.empty (postShorten "example.com") ⟨0, 0, 0, 0⟩).store.get t =
          some (postShorten "example.com").FormValueUrl) ∧
      (¬("http://".toList <+: (postShorten "example.com").FormValueUrl ∨
          "https://".toList <+: (postShorten "example.com").FormValueUrl) →
        (shortenHandler URLStore.empty (postShorten "example.com") ⟨0, 0, 0, 0⟩).store.get t =
          some ("http://".toList ++ (postShorten "example.com").FormValueUrl)) :=
  ⟨rfl, by decide, by decide, by decide,
    C2_normalization URLStore.empty (postShorten "example.com") ⟨0, 0, 0, 0⟩ rfl (by decide)⟩

/-- C3: shorten handler rejection. The handler answers 405 exactly when the
method is not POST (whatever the form value), 400 exactly when the method is POST
and the form value `url` is empty, and 200 in every other case; a 405 or 400
answer leaves the store unchanged and generates no token. -/
theorem C3_rejection (store : URLStore) (r : Request) (rnd : RandBuf) :
    ((shortenHandler store r rnd).resp.status = some 405 ↔ r.Method ≠ "POST".toList) ∧
    ((shortenHandler store r rnd).resp.status = some 400 ↔
      (r.Method = "POST".toList ∧ r.FormValueUrl = [])) ∧
    (¬(r.Method ≠ "POST".toList) → ¬(r.Method = "POST".toList ∧ r.FormValueUrl = []) →
      (shortenHandler store r rnd).resp.status = some 200) ∧
    (((shortenHandler store r rnd).resp.status = some 405 ∨
        (shortenHandler store r rnd).resp.status = some 400) →
      (shortenHandler store r rnd).store = store ∧
      (shortenHandler store r rnd).generated = []) := by
  by_cases hm : r.Method = MethodPost
  · by_cases hu : r.FormValueUrl = []
    · rw [shortenHandler_empty store r rnd hm hu]
      have hm' : r.Method = "POST".toList := hm
      simp [Response.status, StatusBadRequest, hm', hu]
    · rw [shortenHandler_ok store r rnd hm hu]
      have hm' : r.Method = "POST".toList := hm
      simp [Response.status, StatusOK, hm', hu]
  · rw [shortenHandler_not_post store r rnd hm]
    have hm' : ¬r.Method = ['P', 'O', 'S', 'T'] := hm
    simp [Response.status, StatusMethodNotAllowed, hm']

/-- C4: unknown token gives 404. In the store reached from the empty store by
any sequence of handler requests, a request to the root handler with path `/X`,
where `X` is non-empty and was never returned by `generateShortURL` during the
sequence, is answered by `http.NotFound`: status 404, not 302. -/
theorem C4_unknown_token (cs : List Call) (X : GoString) (q : Request)
    (hX : X ≠ []) (hq : q.Path = "/".toList ++ X) (hnew : X ∉ (run URLStore.empty cs).2) :
    (rootHandler (run URLStore.empty cs).1 q).resp = .NotFound ∧
    (rootHandler (run URLStore.empty cs).1 q).resp.status = some 404 ∧
    (rootHandler (run URLStore.empty cs).1 q).resp.status ≠ some 302 := by
  have hget : (run URLStore.empty cs).1.get X = none := by
    rw [URLStore.get, AList.lookup_eq_none]
    intro hmem
    rcases run_keys cs URLStore.empty X hmem with h | h
    · exact absurd h (by simp [URLStore.empty])
    · exact hnew h
  rw [rootHandler_token _ q X hX hq, hget]
  refine ⟨rfl, rfl, ?_⟩
  simp [Response.status, StatusNotFound]

/-- Witness of C4: after `golang.org` was shortened to `AQIDBA`, the path
`/AQIDBB` is answered 404. -/
theorem C4_unknown_token_witness :
    "AQIDBB".toList ≠ [] ∧
    (getPath "/AQIDBB").Path = "/".toList ++ "AQIDBB".toList ∧
    (run URLStore.empty [.shorten (postShorten "golang.org") ⟨1, 2, 3, 4⟩]).2 =
      ["AQIDBA".toList] ∧
    ((rootHandler (run URLStore.empty [.shorten (postShorten "golang.org") ⟨1, 2, 3, 4⟩]).1
        (getPath "/AQIDBB")).resp = .NotFound ∧
      (rootHandler (run URLStore.empty [.shorten (postShorten "golang.org") ⟨1, 2, 3, 4⟩]).1
        (getPath "/AQIDBB")).resp.status = some 404 ∧
      (rootHandler (run URLStore.empty [.shorten (postShorten "golang.org") ⟨1, 2, 3, 4⟩]).1
        (getPath "/AQIDBB")).resp.status ≠ some 302) :=
  ⟨by decide, rfl, by decide,
    C4_unknown_token [.shorten (postShorten "golang.org") ⟨1, 2, 3, 4⟩] "AQIDBB".toList
      (getPath "/AQIDBB") (by decide) rfl (by decide)⟩

/-- C6 as stated fails: two successive successful shorten calls with the same
long URL that read the same random bytes (here four zero bytes) return the same
token `AAAAAA`, and the store afterwards holds one entry. -/
theorem C6_same_bytes_same_token :
    (shortenHandler URLStore.empty (postShorten "a.example") ⟨0, 0, 0, 0⟩).resp.status =
      some 200 ∧
    (shortenHandler oneEntryStore (postShorten "a.example") ⟨0, 0, 0, 0⟩).resp.status =
      some 200 ∧
    (shortenHandler URLStore.empty (postShorten "a.example") ⟨0, 0, 0, 0⟩).resp.token =
      some "AAAAAA".toList ∧
    (shortenHandler oneEntryStore (postShorten "a.example") ⟨0, 0, 0, 0⟩).resp.token =
      some "AAAAAA".toList ∧
    (shortenHandler oneEntryStore (postShorten "a.example") ⟨0, 0, 0, 0⟩).store.len = 1 := by
  decide

/-- C6, amended: two successive successful shorten calls with the same long URL
whose random bytes differ return two different tokens, and the store afterwards
holds an entry under each token (so at least two entries), both mapping to the
same normalized URL. -/
theorem C6_distinct_tokens (store : URLStore) (r1 r2 : Request) (rnd1 rnd2 : RandBuf)
    (hm1 : r1.Method = MethodPost) (hm2 : r2.Method = MethodPost)
    (hu : r1.FormValueUrl ≠ []) (hsame : r2.FormValueUrl = r1.FormValueUrl)
    (hrnd : rnd1 ≠ rnd2) :
    ∃ t1 t2, (shortenHandler store r1 rnd1).resp.token = some t1 ∧
      (shortenHandler (shortenHandler store r1 rnd1).store r2 rnd2).resp.token = some t2 ∧
      t1 ≠ t2 ∧
      (shortenHandler (shortenHandler store r1 rnd1).store r2 rnd2).store.get t1 =
        some (normalized r1.FormValueUrl) ∧
      (shortenHandler (shortenHandler store r1 rnd1).store r2 rnd2).store.get t2 =
        some (normalized r1.FormValueUrl) ∧
      2 ≤ (shortenHandler (shortenHandler store r1 rnd1).store r2 rnd2).store.len := by
  have hu2 : r2.FormValueUrl ≠ [] := by rw [hsame]; exact hu
  have hne : tokenChars rnd1 ≠ tokenChars rnd2 := fun h => hrnd (tokenChars_inj h)
  have g1 : (shortenHandler (shortenHandler store r1 rnd1).store r2 rnd2).store.get
      (tokenChars rnd1) = some (normalized r1.FormValueUrl) := by
    rw [shortenHandler_ok _ r2 rnd2 hm2 hu2, shortenHandler_ok store r1 rnd1 hm1 hu,
      get_put_ne _ _ hne, get_put_same]
  have g2 : (shortenHandler (shortenHandler store r1 rnd1).store r2 rnd2).store.get
      (tokenChars rnd2) = some (normalized r1.FormValueUrl) := by
    rw [shortenHandler_ok _ r2 rnd2 hm2 hu2, get_put_same, hsame]
  refine ⟨tokenChars rnd1, tokenChars rnd2, ?_, ?_, hne, g1, g2, two_le_len _ hne g1 g2⟩
  · rw [shortenHandler_ok store r1 rnd1 hm1 hu]
    rfl
  · rw [shortenHandler_ok _ r2 rnd2 hm2 hu2]
    rfl

/-- Witness of C6, amended: `a.example` shortened twice, with bytes 0,0,0,0 and
then 0,0,0,1, gives the tokens `AAAAAA` and `AAAAAQ`. -/
theorem C6_distinct_tokens_witness :
    (shortenHandler URLStore.empty (postShorten "a.example") ⟨0, 0, 0, 0⟩).resp.token =
      some "AAAAAA".toList ∧
    (shortenHandler oneEntryStore (postShorten "a.example") ⟨0, 0, 0, 1⟩).resp.token =
      some "AAAAAQ".toList ∧
    (shortenHandler oneEntryStore (postShorten "a.example") ⟨0, 0, 0, 1⟩).store.len = 2 ∧
    ∃ t1 t2,
      (shortenHandler URLStore.empty (postShorten "a.example") ⟨0, 0, 0, 0⟩).resp.token =
        some t1 ∧
      (shortenHandler
        (shortenHandler URLStore.empty (postShorten "a.example") ⟨0, 0, 0, 0⟩).store
        (postShorten "a.example") ⟨0, 0, 0, 1⟩).resp.token = some t2 ∧
      t1 ≠ t2 ∧
      (shortenHandler
        (shortenHandler URLStore.empty (postShorten "a.example") ⟨0, 0, 0, 0⟩).store
        (postShorten "a.example") ⟨0, 0, 0, 1⟩).store.get t1 =
        some (normalized (postShorten "a.example").FormValueUrl) ∧
      (shortenHandler
        (shortenHandler URLStore.empty (postShorten "a.example") ⟨0, 0, 0, 0⟩).store
        (postShorten "a.example") ⟨0, 0, 0, 1⟩).store.get t2 =
        some (normalized (postShorten "a.example").FormValueUrl) ∧
      2 ≤ (shortenHandler
        (shortenHandler URLStore.empty (postShorten "a.example") ⟨0, 0, 0, 0⟩).store
        (postShorten "a.example") ⟨0, 0, 0, 1⟩).store.len :=
  ⟨by decide, by decide, by decide,
    C6_distinct_tokens URLStore.empty (postShorten "a.example") (postShorten "a.example")
      ⟨0, 0, 0, 0⟩ ⟨0, 0, 0, 1⟩ rfl rfl (by decide) rfl (by decide)⟩

/-- C7 as stated fails: the store holds `AAAAAA ↦ http://a.example`; a shorten
request for `b.example` that reads four zero bytes generates `AAAAAA` again, and
afterwards the entry under `AAAAAA` is `http://b.example`. -/
theorem C7_entry_overwritten :
    oneEntryStore.get "AAAAAA".toList = some "http://a.example".toList ∧
    (serve oneEntryStore (.shorten (postShorten "b.example") ⟨0, 0, 0, 0⟩)).store.get
      "AAAAAA".toList = some "http://b.example".toList ∧
    (serve oneEntryStore (.shorten (postShorten "b.example") ⟨0, 0, 0, 0⟩)).store.get
      "AAAAAA".toList ≠ some "http://a.example".toList := by
  decide

/-- C7, amended: for every store and every request to either handler, every
token present before the request is present after it (no entry is deleted),
every entry whose token is not the one generated by this request keeps its
longURL, and the root handler never modifies the store. -/
theorem C7_entries_kept (store : URLStore) (c : Call) :
    (∀ k, (store.get k).isSome = true → ((serve store c).store.get k).isSome = true) ∧
    (∀ k v, k ∉ (serve store c).generated → store.get k = some v →
      (serve store c).store.get k = some v) ∧
    (∀ r, (rootHandler store r).store = store) := by
  refine ⟨?_, ?_, rootHandler_store store⟩
  · intro k hk
    cases c with
    | root r => simpa [serve, rootHandler_store] using hk
    | shorten r rnd =>
      simp only [serve]
      by_cases hm : r.Method = MethodPost
      · by_cases hu : r.FormValueUrl = []
        · rw [shortenHandler_empty store r rnd hm hu]
          exact hk
        · rw [shortenHandler_ok store r rnd hm hu]
          by_cases hkt : k = tokenChars rnd
          · rw [hkt, get_put_same]
            rfl
          · rw [get_put_ne _ _ hkt]
            exact hk
      · rw [shortenHandler_not_post store r rnd hm]
        exact hk
  · intro k v hgen hk
    cases c with
    | root r => simpa [serve, rootHandler_store] using hk
    | shorten r rnd =>
      simp only [serve] at hgen ⊢
      by_cases hm : r.Method = MethodPost
      · by_cases hu : r.FormValueUrl = []
        · rw [shortenHandler_empty store r rnd hm hu]
          exact hk
        · rw [shortenHandler_ok store r rnd hm hu] at hgen ⊢
          have hkt : k ≠ tokenChars rnd := by simpa using hgen
          rw [get_put_ne _ _ hkt]
          exact hk
      · rw [shortenHandler_not_post store r rnd hm]
        exact hk

/-- C8: stored URLs always carry a scheme. In every store reached from the empty
store by a sequence of handler requests, every stored value starts with
`http://` or `https://` and is non-empty; and every 302 of the root handler on
such a store has a `Location` header starting with one of the two. -/
theorem C8_scheme_invariant (cs : List Call) :
    (∀ k v, (run URLStore.empty cs).1.get k = some v →
      ("http://".toList <+: v ∨ "https://".toList <+: v) ∧ v ≠ []) ∧
    (∀ q : Request, (rootHandler (run URLStore.empty cs).1 q).resp.status = some 302 →
      ∃ url, (rootHandler (run URLStore.empty cs).1 q).resp.location = some url ∧
        ("http://".toList <+: url ∨ "https://".toList <+: url)) := by
  have hinv := schemeInv_run cs URLStore.empty schemeInv_empty
  refine ⟨?_, ?_⟩
  · intro k v h
    have hs := hinv k v h
    refine ⟨hs, ?_⟩
    rintro rfl
    rcases hs with hs | hs <;> simp at hs
  · intro q hq
    cases hresp : (rootHandler (run URLStore.empty cs).1 q).resp with
    | Redirect url code =>
      obtain ⟨_, k, hk⟩ := rootHandler_redirect _ q url code hresp
      exact ⟨hexEscapeNonASCII url, redirectLocation_of_scheme url (hinv k url hk),
        hexEscape_scheme (hinv k url hk)⟩
    | Error msg code =>
      exfalso
      unfold rootHandler at hresp
      split at hresp
      · split at hresp
        · cases hresp
        · split at hresp <;> cases hresp
      · cases hresp
    | NotFound => rw [hresp] at hq; simp [Response.status, StatusNotFound] at hq
    | ServeFile name => rw [hresp] at hq; simp [Response.status] at hq
    | Execute data =>
      exfalso
      unfold rootHandler at hresp
      split at hresp
      · split at hresp
        · cases hresp
        · split at hresp <;> cases hresp
      · cases hresp
    | Panicked => rw [hresp] at hq; simp [Response.status] at hq

/-- C9: collision silently overwrites. When a successful shorten call generates a
token `t` that is already a key of the store, the response is 200 with the same
fragment as on any other store, the entry for `t` afterwards maps to the new
normalized URL (and no longer to a different old one), the number of entries is
unchanged, and every entry under another key is unchanged. -/
theorem C9_collision_overwrites (store : URLStore) (r : Request) (rnd : RandBuf)
    (t old : GoString) (hm : r.Method = MethodPost) (hu : r.FormValueUrl ≠ [])
    (ht : generateShortURL rnd = some t) (hold : store.get t = some old) :
    (shortenHandler store r rnd).resp.status = some 200 ∧
    (shortenHandler store r rnd).resp.token = some t ∧
    (∀ fresh : URLStore, (shortenHandler fresh r rnd).resp = (shortenHandler store r rnd).resp) ∧
    (shortenHandler store r rnd).store.get t = some (normalized r.FormValueUrl) ∧
    (old ≠ normalized r.FormValueUrl → (shortenHandler store r rnd).store.get t ≠ some old) ∧
    (shortenHandler store r rnd).store.len = store.len ∧
    (∀ k, k ≠ t → (shortenHandler store r rnd).store.get k = store.get k) := by
  have ht' : t = tokenChars rnd := by
    rw [generateShortURL_eq] at ht
    exact (Option.some.inj ht).symm
  subst ht'
  have hmem : tokenChars rnd ∈ store.urls := by
    rw [← get_isSome_iff, hold]
    rfl
  rw [shortenHandler_ok store r rnd hm hu]
  refine ⟨rfl, rfl, ?_, get_put_same _ _ _, ?_, len_put_of_mem _ _ hmem, ?_⟩
  · intro fresh
    rw [shortenHandler_ok fresh r rnd hm hu]
  · intro hne h
    rw [get_put_same] at h
    exact hne (Option.some.inj h).symm
  · intro k hk
    exact get_put_ne _ _ hk

/-- Witness of C9: the store holds `AAAAAA ↦ http://a.example`; submitting
`b.example` with four zero bytes answers 200 and leaves one entry,
`AAAAAA ↦ http://b.example`. -/
theorem C9_collision_overwrites_witness :
    generateShortURL ⟨0, 0, 0, 0⟩ = some "AAAAAA".toList ∧
    oneEntryStore.get "AAAAAA".toList = some "http://a.example".toList ∧
    oneEntryStore.len = 1 ∧
    (shortenHandler oneEntryStore (postShorten "b.example") ⟨0, 0, 0, 0⟩).store.len = 1 ∧
    (shortenHandler oneEntryStore (postShorten "b.example") ⟨0, 0, 0, 0⟩).store.get
      "AAAAAA".toList = some "http://b.example".toList ∧
    (shortenHandler oneEntryStore (postShorten "b.example") ⟨0, 0, 0, 0⟩).resp.status =
      some 200 :=
  ⟨by decide, by decide, by decide, by decide, by decide,
    (C9_collision_overwrites oneEntryStore (postShorten "b.example") ⟨0, 0, 0, 0⟩
      "AAAAAA".toList "http://a.example".toList rfl (by decide) (by decide) (by decide)).1⟩

end UrlShortener
